import Mathlib

/-!
Verification of the csv-payments transaction-settlement engine.

The data model and operations below are a shallow embedding of the Rust
source: `src/transaction.rs` (transaction records), `src/account.rs`
(`Account::new`, `Account::settle_transaction`) and `src/main.rs`
(`process_transactions`). Monetary amounts (`rust_decimal::Decimal`) are
modelled as exact rationals, the `HashMap` account and reference-transaction
stores as functions `Nat → Option _`, and the unbounded `while` loop of
`process_transactions` as a step function iterated with explicit fuel.
-/

namespace CsvPayments

/-- Mirrors `TransactionType` in `src/transaction.rs`. -/
inductive TransactionType where
  | Deposit
  | Withdrawal
  | Dispute
  | Resolve
  | Chargeback
deriving DecidableEq, Repr

/-- Mirrors `Transaction` in `src/transaction.rs`; `amount` is optional. -/
structure Transaction where
  type : TransactionType
  client_id : Nat
  tx_id : Nat
  amount : Option Rat
deriving DecidableEq, Repr

/-- Mirrors the `Account` struct of `src/account.rs`. -/
structure Account where
  client_id : Nat
  funds_available : Rat
  funds_held : Rat
  funds_total : Rat
  locked : Bool
deriving DecidableEq, Repr

/-- Mirrors `Account::new` in `src/account.rs`. -/
def Account.new (id : Nat) : Account :=
  { client_id := id
    funds_available := 0
    funds_held := 0
    funds_total := 0
    locked := false }

/-- Mirrors `Account::settle_transaction` in `src/account.rs`: one `match`
on the transaction type, each arm guarded by the presence of the relevant
amount, the withdrawal arm also by the available-funds check. -/
def Account.settle_transaction (a : Account) (tx : Transaction)
    (ref_tx : Option Transaction) : Account :=
  match tx.type with
  | .Deposit =>
    match tx.amount with
    | some amt =>
      { a with funds_available := a.funds_available + amt
               funds_total := a.funds_total + amt }
    | none => a
  | .Withdrawal =>
    match tx.amount with
    | some amt =>
      if a.funds_available ≥ amt then
        { a with funds_available := a.funds_available - amt
                 funds_total := a.funds_total - amt }
      else a
    | none => a
  | .Dispute =>
    match ref_tx with
    | some ref =>
      match ref.amount with
      | some amt =>
        { a with funds_available := a.funds_available - amt
                 funds_held := a.funds_held + amt }
      | none => a
    | none => a
  | .Resolve =>
    match ref_tx with
    | some ref =>
      match ref.amount with
      | some amt =>
        { a with funds_available := a.funds_available + amt
                 funds_held := a.funds_held - amt }
      | none => a
    | none => a
  | .Chargeback =>
    match ref_tx with
    | some ref =>
      match ref.amount with
      | some amt =>
        { a with funds_held := a.funds_held - amt
                 funds_total := a.funds_total - amt
                 locked := true }
      | none => a
    | none => a

/-- The condition `tx.r#type == TransactionType::Deposit || tx.r#type ==
TransactionType::Withdrawal` tested by `process_transactions`. -/
def isMonetary : TransactionType → Bool
  | .Deposit => true
  | .Withdrawal => true
  | _ => false

/-- Pointwise update of a map, mirroring `HashMap::insert`. -/
def upd {α : Type} (f : Nat → Option α) (k : Nat) (v : α) : Nat → Option α :=
  fun k' => if k' = k then some v else f k'

/-- State of the `process_transactions` loop in `src/main.rs`: the working
queue, the `AccountsDB` and the `TransactionsDB` reference index. -/
structure ProcState where
  queue : List Transaction
  accounts : Nat → Option Account
  ref_txs : Nat → Option Transaction

/-- One iteration of the `while` loop of `process_transactions`: pop the
front transaction, get-or-create its client's account (`entry ...
or_insert_with`), then either settle a Deposit/Withdrawal and index it,
settle a dispute-family transaction whose reference is found, or push the
transaction back onto the end of the queue. -/
def step (s : ProcState) : ProcState :=
  match s.queue with
  | [] => s
  | tx :: rest =>
    let acc := (s.accounts tx.client_id).getD (Account.new tx.client_id)
    if isMonetary tx.type then
      { queue := rest
        accounts := upd s.accounts tx.client_id (acc.settle_transaction tx none)
        ref_txs := upd s.ref_txs tx.tx_id tx }
    else
      match s.ref_txs tx.tx_id with
      | some ref =>
        { queue := rest
          accounts := upd s.accounts tx.client_id
            (acc.settle_transaction tx (some ref))
          ref_txs := s.ref_txs }
      | none =>
        { queue := rest ++ [tx]
          accounts := upd s.accounts tx.client_id acc
          ref_txs := s.ref_txs }

/-- Fuelled iteration of `step`: `some` final state once the queue is
empty, `none` when the fuel runs out first. The Rust loop has no fuel;
universally quantifying over it captures both termination and
non-termination of the source loop. -/
def run : Nat → ProcState → Option ProcState
  | 0, s =>
    match s.queue with
    | [] => some s
    | _ :: _ => none
  | fuel + 1, s =>
    match s.queue with
    | [] => some s
    | _ :: _ => run fuel (step s)

/-- Mirrors `process_transactions` in `src/main.rs`, started from the
empty account map and empty reference index. -/
def process_transactions (fuel : Nat) (q : List Transaction) : Option ProcState :=
  run fuel { queue := q, accounts := fun _ => none, ref_txs := fun _ => none }

/-- The balance invariant of an account: `total == available + held`. -/
def BalancedAccount (a : Account) : Prop :=
  a.funds_total = a.funds_available + a.funds_held

theorem balanced_settle {a : Account} (tx : Transaction)
    (r : Option Transaction) (h : BalancedAccount a) :
    BalancedAccount (a.settle_transaction tx r) := by
  unfold BalancedAccount at *
  unfold Account.settle_transaction
  rcases tx with ⟨ty, c, i, amt⟩
  rcases a with ⟨ac, av, held, tot, lk⟩
  dsimp at h
  cases ty with
  | Deposit =>
    cases amt with
    | none => exact h
    | some v => dsimp; rw [h]; ring
  | Withdrawal =>
    cases amt with
    | none => exact h
    | some v =>
      dsimp
      split
      · dsimp; rw [h]; ring
      · exact h
  | Dispute =>
    cases r with
    | none => exact h
    | some ref =>
      cases href : ref.amount with
      | none => simp only [href]; exact h
      | some v => simp only [href]; rw [h]; ring
  | Resolve =>
    cases r with
    | none => exact h
    | some ref =>
      cases href : ref.amount with
      | none => simp only [href]; exact h
      | some v => simp only [href]; rw [h]; ring
  | Chargeback =>
    cases r with
    | none => exact h
    | some ref =>
      cases href : ref.amount with
      | none => simp only [href]; exact h
      | some v => simp only [href]; rw [h]; ring

theorem balanced_foldl (steps : List (Transaction × Option Transaction)) :
    ∀ a : Account, BalancedAccount a →
      BalancedAccount
        (steps.foldl (fun acc p => acc.settle_transaction p.1 p.2) a) := by
  induction steps with
  | nil => intro a h; exact h
  | cons p rest ih =>
    intro a h
    exact ih _ (balanced_settle p.1 p.2 h)

theorem balanced_new (id : Nat) : BalancedAccount (Account.new id) := by
  unfold BalancedAccount Account.new
  norm_num

/-- C1: `settle_transaction` preserves `funds_total = funds_available +
funds_held` for every transaction and optional reference, and hence every
account obtained from `Account.new` by any sequence of settlements is
balanced. -/
theorem settle_balance_invariant (a : Account) (tx : Transaction)
    (r : Option Transaction) (h : BalancedAccount a) :
    BalancedAccount (a.settle_transaction tx r)
    ∧ ∀ (id : Nat) (steps : List (Transaction × Option Transaction)),
        BalancedAccount
          (steps.foldl (fun acc p => acc.settle_transaction p.1 p.2)
            (Account.new id)) := by
  refine ⟨balanced_settle tx r h, fun id steps => ?_⟩
  exact balanced_foldl steps _ (balanced_new id)

/-- Witness for C1 at a concrete deposit on a fresh account. -/
theorem settle_balance_invariant_witness :
    BalancedAccount
      ((Account.new 7).settle_transaction
        ⟨.Deposit, 7, 1, some 5⟩ none) :=
  (settle_balance_invariant (Account.new 7) ⟨.Deposit, 7, 1, some 5⟩ none
    (balanced_new 7)).1

theorem isMonetary_true_of {t : TransactionType}
    (h : t = .Deposit ∨ t = .Withdrawal) : isMonetary t = true := by
  rcases h with rfl | rfl <;> rfl

theorem isMonetary_false_of {t : TransactionType}
    (h : t = .Dispute ∨ t = .Resolve ∨ t = .Chargeback) :
    isMonetary t = false := by
  rcases h with rfl | rfl | rfl <;> rfl

theorem monetary_of_isMonetary {t : TransactionType}
    (h : isMonetary t = true) : t = .Deposit ∨ t = .Withdrawal := by
  cases t <;> simp_all [isMonetary]

/-- An account frozen by a prior chargeback, used as concrete input. -/
def lockedAcc : Account :=
  { client_id := 1
    funds_available := 0
    funds_held := 0
    funds_total := 0
    locked := true }

/-- C3 counterexample: a Deposit applied to a locked account still changes
`funds_available`, so a locked account is not immune to mutation. -/
theorem locked_account_mutates_cex :
    lockedAcc.locked = true
    ∧ (lockedAcc.settle_transaction ⟨.Deposit, 1, 2, some 5⟩ none).funds_available
        ≠ lockedAcc.funds_available := by
  refine ⟨rfl, ?_⟩
  simp only [Account.settle_transaction, lockedAcc]
  norm_num

/-- C3 (amended): once `locked` is true it stays true under every further
`settle_transaction` call; the code however never tests `locked`, so a
locked account is still mutated by later transactions. -/
theorem locked_stays_locked (a : Account) (tx : Transaction)
    (r : Option Transaction) (h : a.locked = true) :
    (a.settle_transaction tx r).locked = true := by
  unfold Account.settle_transaction
  rcases tx with ⟨ty, c, i, amt⟩
  cases ty with
  | Deposit =>
    cases amt with
    | none => exact h
    | some v => exact h
  | Withdrawal =>
    cases amt with
    | none => exact h
    | some v =>
      dsimp
      split
      · exact h
      · exact h
  | Dispute =>
    cases r with
    | none => exact h
    | some ref =>
      cases href : ref.amount with
      | none => simp only [href]; exact h
      | some v => simp only [href]; exact h
  | Resolve =>
    cases r with
    | none => exact h
    | some ref =>
      cases href : ref.amount with
      | none => simp only [href]; exact h
      | some v => simp only [href]; exact h
  | Chargeback =>
    cases r with
    | none => exact h
    | some ref =>
      cases href : ref.amount with
      | none => simp only [href]; exact h
      | some v => simp only [href]

/-- Witness for C3 at a concrete locked account and withdrawal. -/
theorem locked_stays_locked_witness :
    (lockedAcc.settle_transaction ⟨.Withdrawal, 1, 3, some 2⟩ none).locked = true :=
  locked_stays_locked lockedAcc ⟨.Withdrawal, 1, 3, some 2⟩ none rfl

/-- C4: a Withdrawal with amount `A` is a complete no-op when
`funds_available < A`, and otherwise decrements exactly `funds_available`
and `funds_total` by `A`, leaving `funds_held` and `locked` unchanged. -/
theorem withdrawal_settlement (a : Account) (tx : Transaction)
    (r : Option Transaction) (A : Rat)
    (ht : tx.type = .Withdrawal) (ha : tx.amount = some A) :
    (a.funds_available < A → a.settle_transaction tx r = a)
    ∧ (A ≤ a.funds_available →
        (a.settle_transaction tx r).funds_available = a.funds_available - A
        ∧ (a.settle_transaction tx r).funds_total = a.funds_total - A
        ∧ (a.settle_transaction tx r).funds_held = a.funds_held
        ∧ (a.settle_transaction tx r).locked = a.locked) := by
  unfold Account.settle_transaction
  simp only [ht, ha]
  constructor
  · intro hlt
    rw [if_neg (not_le.mpr hlt)]
  · intro hge
    rw [if_pos hge]
    exact ⟨rfl, rfl, rfl, rfl⟩

/-- Witness for C4: a withdrawal from an empty account is dropped. -/
theorem withdrawal_settlement_witness :
    (Account.new 2).settle_transaction ⟨.Withdrawal, 2, 9, some 5⟩ none
      = Account.new 2 :=
  (withdrawal_settlement (Account.new 2) ⟨.Withdrawal, 2, 9, some 5⟩ none 5
    rfl rfl).1 (by norm_num [Account.new])

/-- C5: a Dispute moves the referenced amount from available to held with
total unchanged, and a following Resolve against the same reference undoes
it exactly, so Dispute followed by Resolve is the identity. -/
theorem dispute_resolve_identity (a : Account) (dtx rtx ref : Transaction)
    (A : Rat) (hd : dtx.type = .Dispute) (hr : rtx.type = .Resolve)
    (ha : ref.amount = some A) :
    (a.settle_transaction dtx (some ref)).funds_available
        = a.funds_available - A
    ∧ (a.settle_transaction dtx (some ref)).funds_held = a.funds_held + A
    ∧ (a.settle_transaction dtx (some ref)).funds_total = a.funds_total
    ∧ (a.settle_transaction dtx (some ref)).settle_transaction rtx (some ref)
        = a := by
  unfold Account.settle_transaction
  simp only [hd, hr, ha]
  refine ⟨by trivial, by trivial, by trivial, ?_⟩
  rcases a with ⟨ac, av, held, tot, lk⟩
  have h1 : av - A + A = av := by ring
  have h2 : held + A - A = held := by ring
  rw [h1, h2]

/-- Witness for C5 at a concrete deposit of 5 disputed and resolved. -/
theorem dispute_resolve_identity_witness :
    ((Account.new 3).settle_transaction ⟨.Dispute, 3, 1, none⟩
        (some ⟨.Deposit, 3, 1, some 5⟩)).settle_transaction
      ⟨.Resolve, 3, 1, none⟩ (some ⟨.Deposit, 3, 1, some 5⟩) = Account.new 3 :=
  (dispute_resolve_identity (Account.new 3) ⟨.Dispute, 3, 1, none⟩
    ⟨.Resolve, 3, 1, none⟩ ⟨.Deposit, 3, 1, some 5⟩ 5 rfl rfl rfl).2.2.2

/-- C7: a dispute-family transaction whose referenced transaction carries
no amount is a silent no-op on the account; in particular such a
Chargeback does not set `locked`. -/
theorem missing_ref_amount_noop (a : Account) (tx ref : Transaction)
    (htf : tx.type = .Dispute ∨ tx.type = .Resolve ∨ tx.type = .Chargeback)
    (ha : ref.amount = none) :
    a.settle_transaction tx (some ref) = a := by
  unfold Account.settle_transaction
  rcases htf with h | h | h <;> simp only [h, ha]

/-- Witness for C7: a Chargeback against an amount-less reference. -/
theorem missing_ref_amount_noop_witness :
    (Account.new 4).settle_transaction ⟨.Chargeback, 4, 1, none⟩
      (some ⟨.Deposit, 4, 1, none⟩) = Account.new 4 :=
  missing_ref_amount_noop (Account.new 4) ⟨.Chargeback, 4, 1, none⟩
    ⟨.Deposit, 4, 1, none⟩ (Or.inr (Or.inr rfl)) rfl

theorem step_monetary (s : ProcState) (tx : Transaction)
    (rest : List Transaction) (hq : s.queue = tx :: rest)
    (hm : isMonetary tx.type = true) :
    step s = { queue := rest
               accounts := upd s.accounts tx.client_id
                 (((s.accounts tx.client_id).getD
                   (Account.new tx.client_id)).settle_transaction tx none)
               ref_txs := upd s.ref_txs tx.tx_id tx } := by
  unfold step
  rw [hq]
  simp [hm]

theorem step_found (s : ProcState) (tx : Transaction)
    (rest : List Transaction) (ref : Transaction)
    (hq : s.queue = tx :: rest) (hm : isMonetary tx.type = false)
    (hr : s.ref_txs tx.tx_id = some ref) :
    step s = { queue := rest
               accounts := upd s.accounts tx.client_id
                 (((s.accounts tx.client_id).getD
                   (Account.new tx.client_id)).settle_transaction tx (some ref))
               ref_txs := s.ref_txs } := by
  unfold step
  rw [hq]
  simp [hm, hr]

theorem step_notfound (s : ProcState) (tx : Transaction)
    (rest : List Transaction) (hq : s.queue = tx :: rest)
    (hm : isMonetary tx.type = false) (hr : s.ref_txs tx.tx_id = none) :
    step s = { queue := rest ++ [tx]
               accounts := upd s.accounts tx.client_id
                 ((s.accounts tx.client_id).getD (Account.new tx.client_id))
               ref_txs := s.ref_txs } := by
  unfold step
  rw [hq]
  simp [hm, hr]

theorem run_succ_cons (fuel : Nat) (s : ProcState) (tx : Transaction)
    (rest : List Transaction) (hq : s.queue = tx :: rest) :
    run (fuel + 1) s = run fuel (step s) := by
  simp only [run, hq]

theorem run_zero_cons (s : ProcState) (tx : Transaction)
    (rest : List Transaction) (hq : s.queue = tx :: rest) :
    run 0 s = none := by
  simp only [run, hq]

/-- A dispute-family transaction reaches a dangling reference: it is in
the queue, its `tx_id` is not in the reference index, and no
Deposit/Withdrawal in the queue could ever put it there. -/
def Dangling (s : ProcState) : Prop :=
  ∃ t, t ∈ s.queue
    ∧ (t.type = .Dispute ∨ t.type = .Resolve ∨ t.type = .Chargeback)
    ∧ s.ref_txs t.tx_id = none
    ∧ ∀ t' ∈ s.queue,
        (t'.type = .Deposit ∨ t'.type = .Withdrawal) → t'.tx_id ≠ t.tx_id

theorem dangling_step {s : ProcState} (hs : Dangling s) :
    s.queue ≠ [] ∧ Dangling (step s) := by
  obtain ⟨t, htmem, htf, htr, hall⟩ := hs
  cases hq : s.queue with
  | nil => rw [hq] at htmem; simp at htmem
  | cons hd rest =>
    refine ⟨by simp, ?_⟩
    have hhdmem : hd ∈ s.queue := by rw [hq]; exact List.mem_cons_self hd rest
    by_cases hm : isMonetary hd.type = true
    · have hdm := monetary_of_isMonetary hm
      have hne : hd.tx_id ≠ t.tx_id := hall hd hhdmem hdm
      have htmem' : t ∈ rest := by
        rw [hq] at htmem
        rcases List.mem_cons.mp htmem with he | h
        · exfalso
          rw [he] at htf
          rcases hdm with h1 | h1 <;> rcases htf with h2 | h2 | h2 <;>
            rw [h1] at h2 <;> cases h2
        · exact h
      rw [step_monetary s hd rest hq hm]
      refine ⟨t, htmem', htf, ?_, ?_⟩
      · show upd s.ref_txs hd.tx_id hd t.tx_id = none
        unfold upd
        rw [if_neg (fun he => hne he.symm)]
        exact htr
      · intro t' ht' hm'
        exact hall t' (by rw [hq]; exact List.mem_cons_of_mem hd ht') hm'
    · have hmf : isMonetary hd.type = false := by
        cases hmm : isMonetary hd.type
        · rfl
        · exact absurd hmm hm
      cases href : s.ref_txs hd.tx_id with
      | some ref =>
        have htmem' : t ∈ rest := by
          rw [hq] at htmem
          rcases List.mem_cons.mp htmem with he | h
          · exfalso
            rw [he] at htr
            rw [htr] at href
            cases href
          · exact h
        rw [step_found s hd rest ref hq hmf href]
        refine ⟨t, htmem', htf, htr, ?_⟩
        intro t' ht' hm'
        exact hall t' (by rw [hq]; exact List.mem_cons_of_mem hd ht') hm'
      | none =>
        rw [step_notfound s hd rest hq hmf href]
        refine ⟨t, ?_, htf, htr, ?_⟩
        · show t ∈ rest ++ [hd]
          rw [hq] at htmem
          rcases List.mem_cons.mp htmem with he | h
          · rw [he]; exact List.mem_append_right rest (List.mem_singleton.mpr rfl)
          · exact List.mem_append_left [hd] h
        · intro t' ht' hm'
          have ht'' : t' ∈ s.queue := by
            rw [hq]
            rcases List.mem_append.mp ht' with h | h
            · exact List.mem_cons_of_mem hd h
            · rw [List.mem_singleton.mp h]; exact List.mem_cons_self hd rest
          exact hall t' ht'' hm'

theorem dangling_run (fuel : Nat) :
    ∀ s : ProcState, Dangling s → run fuel s = none := by
  induction fuel with
  | zero =>
    intro s hs
    obtain ⟨hne, _⟩ := dangling_step hs
    cases hq : s.queue with
    | nil => exact absurd hq hne
    | cons a l => exact run_zero_cons s a l hq
  | succ n ih =>
    intro s hs
    obtain ⟨hne, hs'⟩ := dangling_step hs
    cases hq : s.queue with
    | nil => exact absurd hq hne
    | cons a l =>
      rw [run_succ_cons n s a l hq]
      exact ih (step s) hs'

/-- C2: if the input queue contains a Dispute, Resolve, or Chargeback
whose `tx_id` never occurs as the `tx_id` of any Deposit or Withdrawal in
the queue, `process_transactions` never terminates: no amount of fuel
empties the queue, because every pass requeues the dangling transaction. -/
theorem dangling_reference_nontermination (q : List Transaction)
    (t : Transaction) (ht : t ∈ q)
    (htf : t.type = .Dispute ∨ t.type = .Resolve ∨ t.type = .Chargeback)
    (hall : ∀ t' ∈ q,
      (t'.type = .Deposit ∨ t'.type = .Withdrawal) → t'.tx_id ≠ t.tx_id) :
    ∀ fuel, process_transactions fuel q = none := by
  intro fuel
  exact dangling_run fuel _ ⟨t, ht, htf, rfl, hall⟩

/-- Witness for C2: a lone Dispute referencing a `tx_id` with no
Deposit/Withdrawal anywhere loops forever. -/
theorem dangling_reference_nontermination_witness :
    process_transactions 5 [⟨.Dispute, 1, 1, none⟩] = none :=
  dangling_reference_nontermination [⟨.Dispute, 1, 1, none⟩]
    ⟨.Dispute, 1, 1, none⟩ (by simp) (Or.inl rfl)
    (by intro t' ht' hm'; simp at ht'; rw [ht'] at hm'; rcases hm' with h | h <;> cases h)
    5

/-- C6 counterexample: for the queue [Dispute tx 1; Deposit tx 1 of 5;
Withdrawal of 5] the requeue mechanism settles the dispute after the
withdrawal, so the final account differs from the queue in which the
dispute arrives directly after its deposit — both runs terminate. -/
theorem requeue_position_matters_cex :
    (process_transactions 10 [⟨.Dispute, 1, 1, none⟩, ⟨.Deposit, 1, 1, some 5⟩,
        ⟨.Withdrawal, 1, 2, some 5⟩]).map (fun st => st.accounts 1)
      ≠ (process_transactions 10 [⟨.Deposit, 1, 1, some 5⟩, ⟨.Dispute, 1, 1, none⟩,
        ⟨.Withdrawal, 1, 2, some 5⟩]).map (fun st => st.accounts 1)
    ∧ (process_transactions 10 [⟨.Dispute, 1, 1, none⟩, ⟨.Deposit, 1, 1, some 5⟩,
        ⟨.Withdrawal, 1, 2, some 5⟩]).isSome = true
    ∧ (process_transactions 10 [⟨.Deposit, 1, 1, some 5⟩, ⟨.Dispute, 1, 1, none⟩,
        ⟨.Withdrawal, 1, 2, some 5⟩]).isSome = true := by
  refine ⟨?_, ?_, ?_⟩ <;>
    norm_num [process_transactions, run, step, upd, isMonetary,
      Account.settle_transaction, Account.new]

/-- C6 (amended): a dispute-family transaction whose reference is not yet
indexed is pushed back onto the end of the queue (never dropped), so the
rest of the run proceeds exactly as if it had arrived at the end of the
current queue, after its client's account is created; in particular a
Dispute directly followed by its Deposit settles exactly as in the
deposit-first order. -/
theorem requeue_at_end (s : ProcState) (tx : Transaction)
    (rest : List Transaction) (hq : s.queue = tx :: rest)
    (htf : tx.type = .Dispute ∨ tx.type = .Resolve ∨ tx.type = .Chargeback)
    (hr : s.ref_txs tx.tx_id = none) :
    (∀ fuel, run (fuel + 1) s
        = run fuel { queue := rest ++ [tx]
                     accounts := upd s.accounts tx.client_id
                       ((s.accounts tx.client_id).getD (Account.new tx.client_id))
                     ref_txs := s.ref_txs })
    ∧ ∀ (c tid : Nat) (A : Rat),
        (process_transactions 4 [⟨.Dispute, c, tid, none⟩,
            ⟨.Deposit, c, tid, some A⟩]).map (fun st => st.accounts c)
          = (process_transactions 4 [⟨.Deposit, c, tid, some A⟩,
            ⟨.Dispute, c, tid, none⟩]).map (fun st => st.accounts c) := by
  constructor
  · intro fuel
    rw [run_succ_cons fuel s tx rest hq,
      step_notfound s tx rest hq (isMonetary_false_of htf) hr]
  · intro c tid A
    simp [process_transactions, run, step, upd, isMonetary,
      Account.settle_transaction, Account.new]

/-- Witness for C6 at a concrete forward-referencing dispute. -/
theorem requeue_at_end_witness :
    (process_transactions 4 [⟨.Dispute, 1, 1, none⟩,
        ⟨.Deposit, 1, 1, some 5⟩]).map (fun st => st.accounts 1)
      = (process_transactions 4 [⟨.Deposit, 1, 1, some 5⟩,
        ⟨.Dispute, 1, 1, none⟩]).map (fun st => st.accounts 1) :=
  (requeue_at_end
      { queue := [⟨.Dispute, 1, 1, none⟩, ⟨.Deposit, 1, 1, some 5⟩]
        accounts := fun _ => none
        ref_txs := fun _ => none }
      ⟨.Dispute, 1, 1, none⟩ [⟨.Deposit, 1, 1, some 5⟩]
      rfl (Or.inl rfl) rfl).2 1 1 5

/-- A loop state whose reference index holds a Deposit of client 2 under
tx_id 7 while the queued Dispute belongs to client 1. -/
def crossClientState : ProcState :=
  { queue := [⟨.Dispute, 1, 7, none⟩]
    accounts := fun _ => none
    ref_txs := fun k => if k = 7 then some ⟨.Deposit, 2, 7, some 5⟩ else none }

/-- C8: the loop never compares the dispute-family transaction's client_id
with the referenced transaction's client_id: whatever `ref` is found under
the `tx_id`, the settlement is applied to the account of the transaction's
own client using that reference. -/
theorem no_client_id_check (s : ProcState) (tx : Transaction)
    (rest : List Transaction) (ref : Transaction) (hq : s.queue = tx :: rest)
    (htf : tx.type = .Dispute ∨ tx.type = .Resolve ∨ tx.type = .Chargeback)
    (hr : s.ref_txs tx.tx_id = some ref) :
    (step s).accounts tx.client_id
      = some (((s.accounts tx.client_id).getD
          (Account.new tx.client_id)).settle_transaction tx (some ref))
    ∧ (step s).queue = rest := by
  rw [step_found s tx rest ref hq (isMonetary_false_of htf) hr]
  refine ⟨?_, rfl⟩
  show upd s.accounts tx.client_id _ tx.client_id = _
  unfold upd
  rw [if_pos rfl]

/-- Witness for C8: client 1's Dispute settles against client 2's Deposit
on client 1's account. -/
theorem no_client_id_check_witness :
    (step crossClientState).accounts 1
      = some ((Account.new 1).settle_transaction ⟨.Dispute, 1, 7, none⟩
          (some ⟨.Deposit, 2, 7, some 5⟩))
    ∧ (step crossClientState).queue = [] :=
  no_client_id_check crossClientState ⟨.Dispute, 1, 7, none⟩ []
    ⟨.Deposit, 2, 7, some 5⟩ rfl (Or.inl rfl) (by simp [crossClientState])

/-- C9: a Deposit or Withdrawal at the head of the queue is inserted into
the reference index unconditionally after settlement, and consequently a
Dispute against a Withdrawal that was dropped for insufficient funds still
moves that amount from available to held. -/
theorem unconditional_ref_insert (s : ProcState) (tx : Transaction)
    (rest : List Transaction) (hq : s.queue = tx :: rest)
    (hm : tx.type = .Deposit ∨ tx.type = .Withdrawal) :
    (step s).ref_txs tx.tx_id = some tx
    ∧ ∀ (c tid : Nat) (A : Rat), 0 < A →
        (process_transactions 2 [⟨.Withdrawal, c, tid, some A⟩,
            ⟨.Dispute, c, tid, none⟩]).map (fun st => st.accounts c)
          = some (some { client_id := c, funds_available := -A, funds_held := A,
                         funds_total := 0, locked := false }) := by
  constructor
  · rw [step_monetary s tx rest hq (isMonetary_true_of hm)]
    show upd s.ref_txs tx.tx_id tx tx.tx_id = some tx
    unfold upd
    rw [if_pos rfl]
  · intro c tid A hA
    have hA' : ¬ ((0 : Rat) ≥ A) := not_le.mpr hA
    simp [process_transactions, run, step, upd, isMonetary,
      Account.settle_transaction, Account.new, hA']

/-- Witness for C9: a dropped withdrawal of 5 is still indexed and its
dispute drives available to -5. -/
theorem unconditional_ref_insert_witness :
    (process_transactions 2 [⟨.Withdrawal, 1, 1, some 5⟩,
        ⟨.Dispute, 1, 1, none⟩]).map (fun st => st.accounts 1)
      = some (some { client_id := 1, funds_available := -5, funds_held := 5,
                     funds_total := 0, locked := false }) :=
  (unconditional_ref_insert
      { queue := [⟨.Deposit, 1, 1, some 5⟩]
        accounts := fun _ => none
        ref_txs := fun _ => none }
      ⟨.Deposit, 1, 1, some 5⟩ [] rfl (Or.inl rfl)).2 1 1 5 (by norm_num)

/-- C10: inserting a Deposit/Withdrawal under an already-used `tx_id`
overwrites the previous entry, so a dispute-family transaction settling
afterwards uses the later transaction's amount. -/
theorem ref_index_overwrite (s : ProcState) (tx : Transaction)
    (rest : List Transaction) (prev : Transaction) (hq : s.queue = tx :: rest)
    (hm : tx.type = .Deposit ∨ tx.type = .Withdrawal)
    (hprev : s.ref_txs tx.tx_id = some prev) :
    (step s).ref_txs tx.tx_id = some tx
    ∧ ∀ (c tid : Nat) (A B : Rat),
        (process_transactions 3 [⟨.Deposit, c, tid, some A⟩,
            ⟨.Deposit, c, tid, some B⟩, ⟨.Dispute, c, tid, none⟩]).map
            (fun st => st.accounts c)
          = some (some { client_id := c, funds_available := A, funds_held := B,
                         funds_total := A + B, locked := false }) := by
  constructor
  · rw [step_monetary s tx rest hq (isMonetary_true_of hm)]
    show upd s.ref_txs tx.tx_id tx tx.tx_id = some tx
    unfold upd
    rw [if_pos rfl]
  · intro c tid A B
    simp [process_transactions, run, step, upd, isMonetary,
      Account.settle_transaction, Account.new]

/-- Witness for C10: two deposits of 2 and 3 under tx_id 1; the dispute
holds 3, the later amount. -/
theorem ref_index_overwrite_witness :
    (process_transactions 3 [⟨.Deposit, 1, 1, some 2⟩, ⟨.Deposit, 1, 1, some 3⟩,
        ⟨.Dispute, 1, 1, none⟩]).map (fun st => st.accounts 1)
      = some (some { client_id := 1, funds_available := 2, funds_held := 3,
                     funds_total := 2 + 3, locked := false }) :=
  (ref_index_overwrite
      { queue := [⟨.Deposit, 1, 1, some 7⟩]
        accounts := fun _ => none
        ref_txs := fun k => if k = 1 then some ⟨.Deposit, 1, 1, some 4⟩ else none }
      ⟨.Deposit, 1, 1, some 7⟩ [] ⟨.Deposit, 1, 1, some 4⟩
      rfl (Or.inl rfl) (by simp)).2 1 1 2 3

end CsvPayments
